import Mathlib

/-!
# Verification of the acebase binary B+tree engine

Shallow embedding of the parts of the source (`src/unnamed/part_001` unless
noted otherwise) that the checked claims are about:

* the key comparator `_sortCompare` / `_getComparibleValue`,
* the binary key codec `BPlusTree.getBinaryKeyData` / `BPlusTree.getKeyFromBinary`,
* the signed offset codec `_writeSignedOffset` / `_readSignedOffset`,
* the free-space allocator `BinaryBPlusTree._requestFreeSpace` / `_growTree`,
* the transaction engine `TX.execute` (parallel mode),
* the lock usage of the public mutations,
* the tree-level operation driver `BinaryBPlusTree.transaction`,
* the in-memory `BPlusTree.search` "in" operator,
* `BPlusTree.lastLeaf` / `BPlusTree.reverseAll`,
* the ext_data `addValue` write sequence.

JavaScript numbers are modelled as follows.  Where only the order of finite
numbers matters (the comparator) they are modelled by `ℚ`, into which the
finite IEEE 754 doubles embed order-faithfully.  Where their 8-byte
serialization matters (the key codec) they are modelled by that byte image
directly, because the serializer (`numberToBytes` from acebase-core) is an
external dependency that is not part of this repository's sources.
-/

namespace AceBase

/-! ## Offset codec (`_writeSignedOffset` / `_readSignedOffset`, large mode)

Source lines 195-235.  The writer splits the magnitude into six 8-bit digits
by division/modulus (`n & 0xff` on a nonnegative JS number `n` is `n % 256`
even beyond 2^31, because `ToInt32` reduces mod 2^32 and 256 divides 2^32),
stores them big-endian, and sets the top bit of the first byte for negative
offsets.  The reader reverses this.  We model the byte array region
`bytes[index..index+5]` as a six-element list. -/

def _maxSignedOffset : Nat := 2 ^ 47 - 1

/-- The digit loop of `_writeSignedOffset`: iteration `i` stores
`bytes[index + 5 - i] = n & 0xff` and updates `n = n <= b ? 0 : (n - b) / 256`.
`writeDigits n k` is the list of bytes the loop leaves at positions
`index + (6 - k) .. index + 5` after `k` iterations, most significant first. -/
def writeDigits (n : Nat) : Nat → List Nat
  | 0 => []
  | k + 1 =>
    let b := n % 256
    let n' := if n ≤ b then 0 else (n - b) / 256
    writeDigits n' k ++ [b]

/-- `_writeSignedOffset(bytes, index, offset, large = true)`, returning the six
bytes written at `bytes[index..index+5]`, or `none` when the source throws
(`reference offset to big to store in 47 bits`), in which case no byte is
written. -/
def _writeSignedOffset (offset : Int) : Option (List Nat) :=
  let negative := offset < 0
  let o := (if negative then -offset else offset).toNat
  if _maxSignedOffset < o then none
  else
    let bytes := writeDigits o 6
    some (if negative then
            match bytes with
            | [] => []
            | b :: rest => (b ||| 0x80) :: rest
          else bytes)

/-- The read loop of `_readSignedOffset`: `offset += b * 2^((5-i)*8)` for the
bytes at positions `index + i`, `i = 0 .. 5`; `i` is the position of the head
of the remaining list. -/
def readOffsetAux : List Nat → Nat → Nat
  | [], _ => 0
  | b :: rest, i => b * 2 ^ ((5 - i) * 8) + readOffsetAux rest (i + 1)

/-- `_readSignedOffset(bytes, index, large = true)` over the six bytes at
`bytes[index..index+5]`. -/
def _readSignedOffset (bytes : List Nat) : Int :=
  match bytes with
  | [] => 0
  | b₀ :: rest =>
    let isNegative := 0 < b₀ &&& 0x80
    let d₀ := if isNegative then b₀ ^^^ 0x80 else b₀
    let offset : Int := readOffsetAux (d₀ :: rest) 0
    if isNegative then -offset else offset

theorem writeDigits_length (n k : Nat) : (writeDigits n k).length = k := by
  induction k generalizing n with
  | zero => rfl
  | succ k ih => simp [writeDigits, ih]

theorem writeDigits_succ (n k : Nat) :
    writeDigits n (k + 1) = writeDigits (n / 256) k ++ [n % 256] := by
  have h : (if n ≤ n % 256 then 0 else (n - n % 256) / 256) = n / 256 := by
    by_cases hle : n ≤ n % 256
    · have hn : n = n % 256 := le_antisymm hle (Nat.mod_le n 256)
      have hlt : n < 256 := lt_of_le_of_lt hle (Nat.mod_lt _ (by norm_num))
      simp [hle, Nat.div_eq_of_lt hlt]
    · have h256 : n - n % 256 = 256 * (n / 256) := by
        have := Nat.div_add_mod n 256; omega
      rw [if_neg hle, h256, Nat.mul_div_cancel_left _ (by norm_num : (0:ℕ) < 256)]
  simp only [writeDigits]
  rw [h]

theorem readOffsetAux_append (l₁ l₂ : List Nat) (i : Nat) :
    readOffsetAux (l₁ ++ l₂) i = readOffsetAux l₁ i + readOffsetAux l₂ (i + l₁.length) := by
  induction l₁ generalizing i with
  | nil => simp [readOffsetAux]
  | cons b rest ih =>
    simp only [List.cons_append, readOffsetAux, List.length_cons, List.append_eq]
    rw [ih (i + 1)]
    have harith : i + 1 + rest.length = i + (rest.length + 1) := by omega
    rw [harith]
    ring

theorem readOffsetAux_writeDigits (k : Nat) :
    ∀ i n, n < 256 ^ k → i + k ≤ 6 →
      readOffsetAux (writeDigits n k) i = n * 256 ^ (6 - i - k) := by
  induction k with
  | zero =>
    intro i n hn _
    have hn0 : n = 0 := by omega
    subst hn0
    simp [writeDigits, readOffsetAux]
  | succ k ih =>
    intro i n hn hik
    rw [writeDigits_succ, readOffsetAux_append]
    have hdiv : n / 256 < 256 ^ k := by
      rw [Nat.div_lt_iff_lt_mul (by norm_num)]
      calc n < 256 ^ (k + 1) := hn
      _ = 256 ^ k * 256 := by ring
    rw [ih i (n / 256) hdiv (by omega), writeDigits_length]
    have h28 : (2:ℕ) ^ ((5 - (i + k)) * 8) = 256 ^ (5 - (i + k)) := by
      rw [mul_comm, pow_mul]; norm_num
    have h5 : 5 - (i + k) = 6 - i - (k + 1) := by omega
    have h6 : 6 - i - k = (6 - i - (k + 1)) + 1 := by omega
    simp only [readOffsetAux, Nat.mul_zero, Nat.add_zero]
    rw [h28, h5, h6, pow_succ]
    have hsplit : n / 256 * (256 ^ (6 - i - (k + 1)) * 256) + n % 256 * 256 ^ (6 - i - (k + 1))
        = (256 * (n / 256) + n % 256) * 256 ^ (6 - i - (k + 1)) := by ring
    rw [hsplit, Nat.div_add_mod n 256]

theorem writeDigits_zero (n : Nat) : writeDigits n 0 = [] := rfl

theorem writeDigits_six (n : Nat) :
    writeDigits n 6 = [n / 256 ^ 5 % 256, n / 256 ^ 4 % 256, n / 256 ^ 3 % 256,
      n / 256 ^ 2 % 256, n / 256 % 256, n % 256] := by
  simp only [writeDigits_succ, writeDigits_zero, Nat.div_div_eq_div_mul, List.nil_append,
    List.cons_append, List.singleton_append]
  norm_num

/-- Bit gymnastics for the sign bit on a first byte below `0x80`. -/
theorem signBit_facts : ∀ b : Fin 128,
    b.val &&& 128 = 0 ∧ 0 < (b.val ||| 128) &&& 128 ∧ (b.val ||| 128) ^^^ 128 = b.val := by
  decide

theorem readOffsetAux_writeDigits_six (n : Nat) (hn : n < 256 ^ 6) :
    readOffsetAux (writeDigits n 6) 0 = n := by
  have := readOffsetAux_writeDigits 6 0 n hn (by omega)
  simpa using this

theorem writeDigits_six_head_lt (n : Nat) (hn : n ≤ _maxSignedOffset) :
    n / 256 ^ 5 % 256 < 128 := by
  have hdiv : n / 256 ^ 5 < 128 := by
    rw [Nat.div_lt_iff_lt_mul (by norm_num)]
    calc n ≤ _maxSignedOffset := hn
    _ < 128 * 256 ^ 5 := by norm_num [_maxSignedOffset]
  calc n / 256 ^ 5 % 256 ≤ n / 256 ^ 5 := Nat.mod_le _ _
  _ < 128 := hdiv

/-- C4: round trip of the 47-bit signed offset codec (large mode), and the
overflow guard.  For `|offset| ≤ 2^47 - 1` the six bytes written by
`_writeSignedOffset` read back to `offset` via `_readSignedOffset`; for
`|offset| > 2^47 - 1` the writer throws (returns `none`) without writing. -/
theorem writeSignedOffset_roundtrip (offset : Int) :
    (offset.natAbs ≤ _maxSignedOffset →
      ∃ bytes, _writeSignedOffset offset = some bytes ∧ bytes.length = 6 ∧
        _readSignedOffset bytes = offset) ∧
    (_maxSignedOffset < offset.natAbs → _writeSignedOffset offset = none) := by
  have habs : (if offset < 0 then -offset else offset).toNat = offset.natAbs := by
    by_cases hneg : offset < 0 <;> simp [hneg] <;> omega
  constructor
  · intro hle
    have hn6 : offset.natAbs < 256 ^ 6 := by
      have : _maxSignedOffset < 256 ^ 6 := by norm_num [_maxSignedOffset]
      omega
    have hhead : offset.natAbs / 256 ^ 5 % 256 < 128 := writeDigits_six_head_lt _ hle
    have hand : offset.natAbs / 256 ^ 5 % 256 &&& 128 = 0 := (signBit_facts ⟨_, hhead⟩).1
    have hor : 0 < (offset.natAbs / 256 ^ 5 % 256 ||| 128) &&& 128 := (signBit_facts ⟨_, hhead⟩).2.1
    have hxor : (offset.natAbs / 256 ^ 5 % 256 ||| 128) ^^^ 128 = offset.natAbs / 256 ^ 5 % 256 :=
      (signBit_facts ⟨_, hhead⟩).2.2
    have hread : readOffsetAux (offset.natAbs / 256 ^ 5 % 256 ::
        [offset.natAbs / 256 ^ 4 % 256, offset.natAbs / 256 ^ 3 % 256,
         offset.natAbs / 256 ^ 2 % 256, offset.natAbs / 256 % 256, offset.natAbs % 256]) 0
        = offset.natAbs := by
      rw [← writeDigits_six]; exact readOffsetAux_writeDigits_six _ hn6
    by_cases hneg : offset < 0
    · refine ⟨(offset.natAbs / 256 ^ 5 % 256 ||| 128) ::
        [offset.natAbs / 256 ^ 4 % 256, offset.natAbs / 256 ^ 3 % 256,
         offset.natAbs / 256 ^ 2 % 256, offset.natAbs / 256 % 256, offset.natAbs % 256],
        ?_, rfl, ?_⟩
      · simp only [_writeSignedOffset]
        rw [habs, if_neg (show ¬ _maxSignedOffset < offset.natAbs by omega), if_pos hneg,
          writeDigits_six]
      · simp only [_readSignedOffset]
        simp only [hor, if_true, hxor, hread]
        omega
    · refine ⟨writeDigits offset.natAbs 6, ?_, writeDigits_length _ 6, ?_⟩
      · simp only [_writeSignedOffset]
        rw [habs, if_neg (show ¬ _maxSignedOffset < offset.natAbs by omega), if_neg hneg]
      · rw [writeDigits_six]
        simp only [_readSignedOffset]
        have hnot : ¬ (0 < offset.natAbs / 256 ^ 5 % 256 &&& 128) := by omega
        rw [if_neg hnot, if_neg hnot, hread]
        omega
  · intro hgt
    simp only [_writeSignedOffset]
    rw [habs, if_pos (by omega : _maxSignedOffset < offset.natAbs)]

/-- C4 witness: the source's own worked example (`input: 2315765760`,
`expected output: [0, 0, 138, 7, 200, 0]`) round-trips, as does its negation. -/
theorem writeSignedOffset_roundtrip_witness :
    ((2315765760 : Int).natAbs ≤ _maxSignedOffset) ∧
    (∃ bytes, _writeSignedOffset 2315765760 = some bytes ∧ bytes.length = 6 ∧
      _readSignedOffset bytes = 2315765760) := by
  refine ⟨by norm_num [_maxSignedOffset], ?_⟩
  exact (writeSignedOffset_roundtrip 2315765760).1 (by norm_num [_maxSignedOffset])

/-! ## Key comparator (`_getComparibleValue` / `_sortCompare`)

Source lines 40-44 and 91-104.  Keys are JS values of the supported types.
Finite JS numbers are modelled by `ℚ` (the finite IEEE 754 doubles embed
order-faithfully into `ℚ`); a `Date` carries its epoch-millisecond value;
JS strings are modelled by their code-unit sequences, on which the JS `<`
operator is lexicographic. -/

/-- A key value as supplied by callers. -/
inductive JsKey where
  | undef
  | null
  | bool (b : Bool)
  | num (q : ℚ)
  | date (ms : ℚ)
  | str (s : List Nat)
  deriving DecidableEq

/-- The result of `_getComparibleValue`: `undefined` and `null` collapse to
`null`, a `Date` becomes its `getTime()` number, everything else is kept. -/
inductive JsComparable where
  | null
  | bool (b : Bool)
  | num (q : ℚ)
  | str (s : List Nat)
  deriving DecidableEq

def _getComparibleValue : JsKey → JsComparable
  | .undef => .null
  | .null => .null
  | .date ms => .num ms
  | .bool b => .bool b
  | .num q => .num q
  | .str s => .str s

/-- JS `<` on two strings: code-unit lexicographic. -/
def strLt : List Nat → List Nat → Bool
  | _, [] => false
  | [], _ :: _ => true
  | a :: as, b :: bs => if a < b then true else if b < a then false else strLt as bs

/-- JS `typeof` of a comparable value (`typeof null` is `"object"`), as the
code-unit sequence of the type name, since the source compares the `typeof`
results with the JS string `<` operator. -/
def jsTypeof : JsComparable → List Nat
  | .null => [111, 98, 106, 101, 99, 116]         -- "object"
  | .bool _ => [98, 111, 111, 108, 101, 97, 110]  -- "boolean"
  | .num _ => [110, 117, 109, 98, 101, 114]       -- "number"
  | .str _ => [115, 116, 114, 105, 110, 103]      -- "string"

/-- JS `<` on two comparable values of the same `typeof` (the only way the
source reaches it): `null < null` is `false`, booleans coerce to 0/1,
numbers compare numerically, strings lexicographically.  Mixed classes never
reach this helper (the `typeof` test returns first). -/
def jsLtSame : JsComparable → JsComparable → Bool
  | .null, .null => false
  | .bool a, .bool b => decide (a < b)
  | .num a, .num b => decide (a < b)
  | .str a, .str b => strLt a b
  | _, _ => false

/-- `_sortCompare(val1, val2)` on already-converted comparable values.
Mirrors lines 94-103: the two `null` early returns, then the `typeof`
string comparison for differing classes, then JS `<`/`>` on the values.
(When the `typeof` strings differ, exactly one of the two string
comparisons holds, so collapsing the two `if`s into `if-then-else` is
equivalent to the source's fall-through.) -/
def sortCompareC (val1 val2 : JsComparable) : Int :=
  if val1 = .null ∧ val2 ≠ .null then -1
  else if val1 ≠ .null ∧ val2 = .null then 1
  else if jsTypeof val1 ≠ jsTypeof val2 then
    (if strLt (jsTypeof val1) (jsTypeof val2) then -1 else 1)
  else if jsLtSame val1 val2 then -1
  else if jsLtSame val2 val1 then 1
  else 0

/-- `_sortCompare(val1, val2)`: lines 92-93 first convert both arguments. -/
def _sortCompare (val1 val2 : JsKey) : Int :=
  sortCompareC (_getComparibleValue val1) (_getComparibleValue val2)

/-- A key is "absent" when it is `undefined` or `null`. -/
def isAbsent : JsKey → Prop
  | .undef => True
  | .null => True
  | _ => False

theorem strLt_irrefl (a : List Nat) : strLt a a = false := by
  induction a with
  | nil => rfl
  | cons x xs ih => simp [strLt, ih]

theorem strLt_asymm : ∀ a b : List Nat, strLt a b = true → strLt b a = false := by
  intro a
  induction a with
  | nil =>
    intro b h
    cases b with
    | nil => simp [strLt] at h
    | cons y ys => rfl
  | cons x xs ih =>
    intro b h
    cases b with
    | nil => simp [strLt] at h
    | cons y ys =>
      simp only [strLt] at h ⊢
      by_cases hxy : x < y
      · rw [if_neg (show ¬ y < x by omega), if_pos hxy]
      · by_cases hyx : y < x
        · simp [hxy, hyx] at h
        · simp only [hxy, hyx, if_false] at h
          rw [if_neg hyx, if_neg hxy]
          exact ih ys h

theorem strLt_trans : ∀ a b c : List Nat, strLt a b = true → strLt b c = true →
    strLt a c = true := by
  intro a
  induction a with
  | nil =>
    intro b c hab hbc
    cases b with
    | nil => simp [strLt] at hab
    | cons y ys =>
      cases c with
      | nil => simp [strLt] at hbc
      | cons z zs => rfl
  | cons x xs ih =>
    intro b c hab hbc
    cases b with
    | nil => simp [strLt] at hab
    | cons y ys =>
      cases c with
      | nil => simp [strLt] at hbc
      | cons z zs =>
        simp only [strLt] at hab hbc ⊢
        by_cases hxy : x < y <;> by_cases hyz : y < z
        · rw [if_pos (show x < z by omega)]
        · by_cases hzy : z < y
          · simp [hxy, hyz, hzy] at hbc
          · have hyz_eq : y = z := by omega
            rw [if_pos (show x < z by omega)]
        · by_cases hyx : y < x
          · simp [hxy, hyx] at hab
          · have hxy_eq : x = y := by omega
            rw [if_pos (show x < z by omega)]
        · by_cases hyx : y < x
          · simp [hxy, hyx] at hab
          · by_cases hzy : z < y
            · simp [hyz, hzy] at hbc
            · have hxz : x = z := by omega
              rw [if_neg (show ¬ x < z by omega), if_neg (show ¬ z < x by omega)]
              simp only [hxy, hyx, if_false] at hab
              simp only [hyz, hzy, if_false] at hbc
              exact ih ys zs hab hbc

theorem strLt_conn : ∀ a b : List Nat, strLt a b = false → strLt b a = false → a = b := by
  intro a
  induction a with
  | nil =>
    intro b hab _
    cases b with
    | nil => rfl
    | cons y ys => simp [strLt] at hab
  | cons x xs ih =>
    intro b hab hba
    cases b with
    | nil => simp [strLt] at hba
    | cons y ys =>
      simp only [strLt] at hab hba
      by_cases hxy : x < y
      · simp [hxy] at hab
      · by_cases hyx : y < x
        · simp [hyx] at hba
        · have hxy_eq : x = y := by omega
          simp only [hxy, hyx, if_false] at hab hba
          rw [hxy_eq, ih ys hab hba]

/-- Class rank induced by the lexicographic comparison of the `typeof`
strings: `"boolean" < "number" < "object" < "string"`, with `null` handled
first by the dedicated branches.  Helper for the proofs, not source code. -/
def rankC : JsComparable → Nat
  | .null => 0
  | .bool _ => 1
  | .num _ => 2
  | .str _ => 3

theorem sortCompareC_eq_rank (v1 v2 : JsComparable) :
    sortCompareC v1 v2 =
      if rankC v1 < rankC v2 then -1
      else if rankC v2 < rankC v1 then 1
      else if jsLtSame v1 v2 then -1
      else if jsLtSame v2 v1 then 1
      else 0 := by
  cases v1 <;> cases v2 <;>
    simp [sortCompareC, jsTypeof, jsLtSame, rankC, strLt]

theorem rankC_eq_shape (v1 v2 : JsComparable) (h : rankC v1 = rankC v2) :
    (v1 = .null ∧ v2 = .null) ∨ (∃ a b, v1 = .bool a ∧ v2 = .bool b) ∨
    (∃ p q, v1 = .num p ∧ v2 = .num q) ∨ (∃ s t, v1 = .str s ∧ v2 = .str t) := by
  cases v1 <;> cases v2 <;> simp_all [rankC]

theorem jsLtSame_asymm (v1 v2 : JsComparable) (h : rankC v1 = rankC v2)
    (hlt : jsLtSame v1 v2 = true) : jsLtSame v2 v1 = false := by
  rcases rankC_eq_shape v1 v2 h with ⟨h1, h2⟩ | ⟨a, b, h1, h2⟩ | ⟨p, q, h1, h2⟩ | ⟨s, t, h1, h2⟩ <;>
    subst h1 <;> subst h2
  · rfl
  · cases a <;> cases b <;> simp_all [jsLtSame]
    exact absurd hlt (by decide)
  · simp only [jsLtSame, decide_eq_true_eq] at hlt
    simp only [jsLtSame, decide_eq_false_iff_not]
    exact not_lt.mpr (le_of_lt hlt)
  · simp only [jsLtSame] at hlt ⊢
    exact strLt_asymm _ _ hlt

theorem jsLtSame_conn (v1 v2 : JsComparable) (h : rankC v1 = rankC v2)
    (h1 : jsLtSame v1 v2 = false) (h2 : jsLtSame v2 v1 = false) : v1 = v2 := by
  rcases rankC_eq_shape v1 v2 h with ⟨ha, hb⟩ | ⟨a, b, ha, hb⟩ | ⟨p, q, ha, hb⟩ | ⟨s, t, ha, hb⟩ <;>
    subst ha <;> subst hb
  · rfl
  · cases a <;> cases b <;> simp_all [jsLtSame]
  · simp only [jsLtSame, decide_eq_false_iff_not, not_lt] at h1 h2
    rw [le_antisymm h2 h1]
  · simp only [jsLtSame] at h1 h2
    rw [strLt_conn s t h1 h2]

theorem jsLtSame_trans (v1 v2 v3 : JsComparable) (h12 : rankC v1 = rankC v2)
    (h23 : rankC v2 = rankC v3) (l12 : jsLtSame v1 v2 = true) (l23 : jsLtSame v2 v3 = true) :
    jsLtSame v1 v3 = true := by
  cases v1 <;> cases v2 <;> cases v3 <;> simp_all [jsLtSame, rankC]
  · exact lt_trans l12 l23
  · exact lt_trans l12 l23
  · exact strLt_trans _ _ _ l12 l23

theorem sc_rank_lt (v1 v2 : JsComparable) (h : rankC v1 < rankC v2) :
    sortCompareC v1 v2 = -1 := by
  rw [sortCompareC_eq_rank, if_pos h]

theorem sc_rank_gt (v1 v2 : JsComparable) (h : rankC v2 < rankC v1) :
    sortCompareC v1 v2 = 1 := by
  rw [sortCompareC_eq_rank, if_neg (Nat.lt_asymm h), if_pos h]

theorem sc_rank_eq_lt (v1 v2 : JsComparable) (h : rankC v1 = rankC v2)
    (hlt : jsLtSame v1 v2 = true) : sortCompareC v1 v2 = -1 := by
  rw [sortCompareC_eq_rank, if_neg (by omega), if_neg (by omega), if_pos hlt]

theorem sc_rank_eq_gt (v1 v2 : JsComparable) (h : rankC v1 = rankC v2)
    (hgt : jsLtSame v2 v1 = true) : sortCompareC v1 v2 = 1 := by
  have hlt : jsLtSame v1 v2 = false := jsLtSame_asymm v2 v1 h.symm hgt
  rw [sortCompareC_eq_rank, if_neg (by omega), if_neg (by omega),
    if_neg (by simp [hlt]), if_pos hgt]

theorem sc_rank_eq_none (v1 v2 : JsComparable) (h : rankC v1 = rankC v2)
    (hlt : jsLtSame v1 v2 = false) (hgt : jsLtSame v2 v1 = false) :
    sortCompareC v1 v2 = 0 := by
  rw [sortCompareC_eq_rank, if_neg (by omega), if_neg (by omega),
    if_neg (by simp [hlt]), if_neg (by simp [hgt])]

theorem sortCompareC_range (v1 v2 : JsComparable) :
    sortCompareC v1 v2 = -1 ∨ sortCompareC v1 v2 = 0 ∨ sortCompareC v1 v2 = 1 := by
  rcases Nat.lt_trichotomy (rankC v1) (rankC v2) with hr | hr | hr
  · exact Or.inl (sc_rank_lt v1 v2 hr)
  · by_cases hlt : jsLtSame v1 v2 = true
    · exact Or.inl (sc_rank_eq_lt v1 v2 hr hlt)
    · by_cases hgt : jsLtSame v2 v1 = true
      · exact Or.inr (Or.inr (sc_rank_eq_gt v1 v2 hr hgt))
      · exact Or.inr (Or.inl (sc_rank_eq_none v1 v2 hr
          (Bool.not_eq_true _ ▸ hlt) (Bool.not_eq_true _ ▸ hgt)))
  · exact Or.inr (Or.inr (sc_rank_gt v1 v2 hr))

theorem sortCompareC_neg_one_iff (v1 v2 : JsComparable) :
    sortCompareC v1 v2 = -1 ↔
      rankC v1 < rankC v2 ∨ (rankC v1 = rankC v2 ∧ jsLtSame v1 v2 = true) := by
  constructor
  · intro h
    rcases Nat.lt_trichotomy (rankC v1) (rankC v2) with hr | hr | hr
    · exact Or.inl hr
    · by_cases hlt : jsLtSame v1 v2 = true
      · exact Or.inr ⟨hr, hlt⟩
      · by_cases hgt : jsLtSame v2 v1 = true
        · rw [sc_rank_eq_gt v1 v2 hr hgt] at h
          exact absurd h (by norm_num)
        · rw [sc_rank_eq_none v1 v2 hr (Bool.not_eq_true _ ▸ hlt)
            (Bool.not_eq_true _ ▸ hgt)] at h
          exact absurd h (by norm_num)
    · rw [sc_rank_gt v1 v2 hr] at h
      exact absurd h (by norm_num)
  · rintro (hr | ⟨hr, hlt⟩)
    · exact sc_rank_lt v1 v2 hr
    · exact sc_rank_eq_lt v1 v2 hr hlt

theorem sortCompareC_zero_iff (v1 v2 : JsComparable) :
    sortCompareC v1 v2 = 0 ↔ v1 = v2 := by
  constructor
  · intro h
    rcases Nat.lt_trichotomy (rankC v1) (rankC v2) with hr | hr | hr
    · rw [sc_rank_lt v1 v2 hr] at h
      exact absurd h (by norm_num)
    · by_cases hlt : jsLtSame v1 v2 = true
      · rw [sc_rank_eq_lt v1 v2 hr hlt] at h
        exact absurd h (by norm_num)
      · by_cases hgt : jsLtSame v2 v1 = true
        · rw [sc_rank_eq_gt v1 v2 hr hgt] at h
          exact absurd h (by norm_num)
        · exact jsLtSame_conn v1 v2 hr (Bool.not_eq_true _ ▸ hlt) (Bool.not_eq_true _ ▸ hgt)
    · rw [sc_rank_gt v1 v2 hr] at h
      exact absurd h (by norm_num)
  · intro h
    subst h
    by_cases hlt : jsLtSame v1 v1 = true
    · exact absurd (hlt.symm.trans (jsLtSame_asymm v1 v1 rfl hlt)) (by decide)
    · exact sc_rank_eq_none v1 v1 rfl (Bool.not_eq_true _ ▸ hlt) (Bool.not_eq_true _ ▸ hlt)

theorem sortCompareC_swap (v1 v2 : JsComparable) :
    sortCompareC v2 v1 = - sortCompareC v1 v2 := by
  rcases Nat.lt_trichotomy (rankC v1) (rankC v2) with hr | hr | hr
  · rw [sc_rank_lt v1 v2 hr, sc_rank_gt v2 v1 hr]
    norm_num
  · by_cases hlt : jsLtSame v1 v2 = true
    · rw [sc_rank_eq_lt v1 v2 hr hlt, sc_rank_eq_gt v2 v1 hr.symm hlt]
      norm_num
    · by_cases hgt : jsLtSame v2 v1 = true
      · rw [sc_rank_eq_gt v1 v2 hr hgt, sc_rank_eq_lt v2 v1 hr.symm hgt]
      · rw [sc_rank_eq_none v1 v2 hr (Bool.not_eq_true _ ▸ hlt) (Bool.not_eq_true _ ▸ hgt),
          sc_rank_eq_none v2 v1 hr.symm (Bool.not_eq_true _ ▸ hgt) (Bool.not_eq_true _ ▸ hlt)]
        norm_num
  · rw [sc_rank_gt v1 v2 hr, sc_rank_lt v2 v1 hr]

theorem sortCompareC_trans (v1 v2 v3 : JsComparable)
    (h12 : sortCompareC v1 v2 = -1) (h23 : sortCompareC v2 v3 = -1) :
    sortCompareC v1 v3 = -1 := by
  rw [sortCompareC_neg_one_iff] at h12 h23 ⊢
  rcases h12 with hr12 | ⟨hr12, hlt12⟩ <;> rcases h23 with hr23 | ⟨hr23, hlt23⟩
  · exact Or.inl (by omega)
  · exact Or.inl (by omega)
  · exact Or.inl (by omega)
  · exact Or.inr ⟨by omega, jsLtSame_trans v1 v2 v3 hr12 hr23 hlt12 hlt23⟩

theorem strLt_iff_lex : ∀ a b : List Nat, strLt a b = true ↔ List.Lex (· < ·) a b := by
  intro a
  induction a with
  | nil =>
    intro b
    cases b with
    | nil =>
      constructor
      · intro h; simp [strLt] at h
      · intro h; cases h
    | cons y ys =>
      constructor
      · intro _; exact List.Lex.nil
      · intro _; rfl
  | cons x xs ih =>
    intro b
    cases b with
    | nil =>
      constructor
      · intro h; simp [strLt] at h
      · intro h; cases h
    | cons y ys =>
      simp only [strLt]
      by_cases hxy : x < y
      · simp only [if_pos hxy]
        constructor
        · intro _; exact List.Lex.rel hxy
        · intro _; trivial
      · by_cases hyx : y < x
        · simp only [if_neg hxy, if_pos hyx]
          constructor
          · intro h; exact absurd h (by decide)
          · intro h
            cases h with
            | cons h' => exact absurd hyx (lt_irrefl _)
            | rel h' => exact absurd h' hxy
        · have heq : x = y := by omega
          subst heq
          simp only [if_neg hxy, if_neg hyx]
          rw [ih ys]
          constructor
          · intro h; exact List.Lex.cons h
          · intro h
            cases h with
            | cons h' => exact h'
            | rel h' => exact absurd h' hxy

theorem _sortCompare_def (a b : JsKey) :
    _sortCompare a b = sortCompareC (_getComparibleValue a) (_getComparibleValue b) := rfl

/-- C2: `_sortCompare` is a deterministic total (pre)order on the supported
key types.  It only returns `-1`, `0`, `1`; it is antisymmetric
(`cmp b a = -cmp a b`) and transitive; it returns `0` exactly when the two
keys have the same comparable value (so `undefined`/`null` tie with each
other, and a `Date` ties with the number equal to its epoch milliseconds —
the only ties between distinct keys).  An absent key sorts before any
non-absent key, any boolean sorts before any number or `Date`, any number or
`Date` sorts before any string, a `Date` compares exactly as its
epoch-millisecond number, and two keys of the same class compare by their
natural order (numeric for numbers, lexicographic for strings,
`false < true` for booleans). -/
theorem sortCompare_total_order :
    (∀ a b : JsKey, _sortCompare a b = -1 ∨ _sortCompare a b = 0 ∨ _sortCompare a b = 1) ∧
    (∀ a b : JsKey, _sortCompare b a = - _sortCompare a b) ∧
    (∀ a b c : JsKey, _sortCompare a b = -1 → _sortCompare b c = -1 → _sortCompare a c = -1) ∧
    (∀ a b : JsKey, _sortCompare a b = 0 ↔ _getComparibleValue a = _getComparibleValue b) ∧
    (∀ a b : JsKey, isAbsent a → ¬ isAbsent b → _sortCompare a b = -1) ∧
    (∀ (x : Bool) (q : ℚ),
      _sortCompare (.bool x) (.num q) = -1 ∧ _sortCompare (.bool x) (.date q) = -1) ∧
    (∀ (q : ℚ) (s : List Nat),
      _sortCompare (.num q) (.str s) = -1 ∧ _sortCompare (.date q) (.str s) = -1) ∧
    (∀ (q : ℚ) (b : JsKey), _sortCompare (.date q) b = _sortCompare (.num q) b ∧
      _sortCompare b (.date q) = _sortCompare b (.num q)) ∧
    (∀ p q : ℚ, _sortCompare (.num p) (.num q) = -1 ↔ p < q) ∧
    (∀ s t : List Nat, _sortCompare (.str s) (.str t) = -1 ↔ List.Lex (· < ·) s t) ∧
    (∀ x y : Bool, _sortCompare (.bool x) (.bool y) = -1 ↔ (x = false ∧ y = true)) := by
  refine ⟨?_, ?_, ?_, ?_, ?_, ?_, ?_, ?_, ?_, ?_, ?_⟩
  · intro a b
    exact sortCompareC_range _ _
  · intro a b
    exact sortCompareC_swap _ _
  · intro a b c h1 h2
    exact sortCompareC_trans _ _ _ h1 h2
  · intro a b
    exact sortCompareC_zero_iff _ _
  · intro a b ha hb
    have hproj : _getComparibleValue a = .null := by
      cases a <;> simp_all [isAbsent, _getComparibleValue]
    have hrank : 0 < rankC (_getComparibleValue b) := by
      cases b <;> simp_all [isAbsent, _getComparibleValue, rankC]
    rw [_sortCompare_def, hproj]
    exact sc_rank_lt _ _ hrank
  · intro x q
    exact ⟨sc_rank_lt _ _ (by norm_num [_getComparibleValue, rankC]),
      sc_rank_lt _ _ (by norm_num [_getComparibleValue, rankC])⟩
  · intro q s
    exact ⟨sc_rank_lt _ _ (by norm_num [_getComparibleValue, rankC]),
      sc_rank_lt _ _ (by norm_num [_getComparibleValue, rankC])⟩
  · intro q b
    exact ⟨rfl, rfl⟩
  · intro p q
    rw [_sortCompare_def, sortCompareC_neg_one_iff]
    simp [_getComparibleValue, rankC, jsLtSame]
  · intro s t
    rw [_sortCompare_def, sortCompareC_neg_one_iff]
    simp only [_getComparibleValue, rankC, jsLtSame, lt_self_iff_false, false_or, true_and]
    exact strLt_iff_lex s t
  · intro x y
    rw [_sortCompare_def, sortCompareC_neg_one_iff]
    cases x <;> cases y <;> simp [_getComparibleValue, rankC, jsLtSame]

/-- C2 witness: transitivity applied at `true < 3 < "a"`, with the
hypotheses discharged by the cross-class clauses of the same theorem. -/
theorem sortCompare_total_order_witness :
    _sortCompare (.bool true) (.str [97]) = -1 :=
  sortCompare_total_order.2.2.1 (.bool true) (.num 3) (.str [97])
    ((sortCompare_total_order.2.2.2.2.2.1 true 3).1)
    ((sortCompare_total_order.2.2.2.2.2.2.1 3 [97]).1)

/-! ## Binary key codec (`BPlusTree.getBinaryKeyData` / `BPlusTree.getKeyFromBinary`)

Source lines 1285-1391.  A key is serialized as one type-tag byte
(`0`=undefined, `1`=string, `2`=number, `3`=boolean, `4`=date), one length
byte, then the payload.  For the codec, keys are modelled at the
representation level:

* a string by its UTF-8 byte sequence (the external `TextEncoder` /
  `TextDecoder` pair is modelled as the identity on that representation);
* a number by its 8-byte big-endian IEEE 754 image — `Modelled from the
  spec:` the serializers `numberToBytes` / `bytesToNumber` come from the
  external acebase-core package (not in `src/`); per the spec numbers and
  dates "are encoded as the 8-byte IEEE 754 (or epoch-ms number)" image,
  so we take that byte image as the number's representation;
* a date by the byte image of its epoch-millisecond number. -/

/-- A key at the representation level used by the binary codec. -/
inductive BinKey where
  | undef
  | str (utf8 : List Nat)
  | num (ieee754 : List Nat)
  | bool (b : Bool)
  | date (epochMsBytes : List Nat)
  deriving DecidableEq

/-- The `while (keyBytes[keyBytes.length-1] === 0) keyBytes.pop();` loop of
the NUMBER branch of `getBinaryKeyData`. -/
def stripTrailingZeros (l : List Nat) : List Nat :=
  (l.reverse.dropWhile (· == 0)).reverse

/-- `BPlusTree.getBinaryKeyData(key)` (lines 1335-1391): type tag, length
byte, payload.  Numbers are trailing-zero-trimmed; strings, booleans and
dates are stored as-is (the DATE branch performs no trimming). -/
def getBinaryKeyData : BinKey → List Nat
  | .undef => [0, 0]
  | .str s => 1 :: s.length :: s
  | .num b => (2 : Nat) :: (stripTrailingZeros b).length :: stripTrailingZeros b
  | .bool v => [3, 1, if v then 1 else 0]
  | .date b => (4 : Nat) :: b.length :: b

/-- `BPlusTree.getKeyFromBinary(bytes, index)` (lines 1285-1334), reading at
the head of the list; returns the key and the consumed `byteLength`
(`keyLength + 2`).  Only the NUMBER branch right-pads the payload to 8
bytes; the DATE branch passes the payload to `bytesToNumber` unpadded.
`none` models the `Unknown key type` throw. -/
def getKeyFromBinary (bytes : List Nat) : Option (BinKey × Nat) :=
  match bytes with
  | keyType :: keyLength :: rest =>
    let keyData := rest.take keyLength
    match keyType with
    | 0 => some (.undef, keyLength + 2)
    | 1 => some (.str keyData, keyLength + 2)
    | 2 => some (.num (keyData ++ List.replicate (8 - keyData.length) 0), keyLength + 2)
    | 3 => some (.bool (keyData.headD 0 == 1), keyLength + 2)
    | 4 => some (.date keyData, keyLength + 2)
    | _ => none
  | _ => none

/-- The supported key set of the claim: any `undefined` or boolean, strings
of at most 255 encoded bytes, numbers and dates with their full 8-byte
image. -/
def SupportedKey : BinKey → Prop
  | .undef => True
  | .str s => s.length ≤ 255
  | .num b => b.length = 8
  | .bool _ => True
  | .date b => b.length = 8

theorem stripTrailingZeros_pad (l : List Nat) :
    stripTrailingZeros l ++
      List.replicate (l.length - (stripTrailingZeros l).length) 0 = l := by
  unfold stripTrailingZeros
  conv_rhs => rw [← l.reverse_reverse, ← List.takeWhile_append_dropWhile (p := (· == 0))
    (l := l.reverse)]
  rw [List.reverse_append]
  congr 1
  have hall : ∀ b ∈ l.reverse.takeWhile (· == 0), b = 0 := by
    intro b hb
    have hpred := List.mem_takeWhile_imp hb
    simpa using hpred
  have hrepl : l.reverse.takeWhile (· == 0) =
      List.replicate (l.reverse.takeWhile (· == 0)).length 0 :=
    List.eq_replicate_of_mem hall
  rw [hrepl]
  simp only [List.reverse_replicate, List.length_replicate]
  congr 1
  have hlen : (l.reverse.takeWhile (· == 0)).length +
      (l.reverse.dropWhile (· == 0)).length = l.length := by
    rw [← List.length_append, List.takeWhile_append_dropWhile, List.length_reverse]
  simp only [List.length_reverse]
  omega

theorem stripTrailingZeros_length_le (l : List Nat) :
    (stripTrailingZeros l).length ≤ l.length := by
  unfold stripTrailingZeros
  have h := congrArg List.length
    (List.takeWhile_append_dropWhile (p := (· == 0)) (l := l.reverse))
  simp only [List.length_append, List.length_reverse] at h ⊢
  omega

/-- C3 (amended): decode-after-encode is the identity on the supported key
set, and the codec is therefore injective there.  Numbers survive the
trailing-zero trim because the decoder right-pads number payloads to 8
bytes; dates are stored as their full 8-byte payload (untrimmed), so they
round-trip without padding. -/
theorem keyCodec_roundtrip :
    (∀ k : BinKey, SupportedKey k →
      getKeyFromBinary (getBinaryKeyData k) = some (k, (getBinaryKeyData k).length)) ∧
    (∀ k₁ k₂ : BinKey, SupportedKey k₁ → SupportedKey k₂ →
      getBinaryKeyData k₁ = getBinaryKeyData k₂ → k₁ = k₂) := by
  have hround : ∀ k : BinKey, SupportedKey k →
      getKeyFromBinary (getBinaryKeyData k) = some (k, (getBinaryKeyData k).length) := by
    intro k hk
    cases k with
    | undef => rfl
    | str s =>
      simp [getBinaryKeyData, getKeyFromBinary, List.take_of_length_le]
    | num b =>
      have hlen : b.length = 8 := hk
      simp only [getBinaryKeyData, getKeyFromBinary, List.take_of_length_le (le_refl _),
        List.take_length]
      rw [← hlen]
      rw [stripTrailingZeros_pad b]
      simp [stripTrailingZeros_length_le, hlen]
    | bool v =>
      cases v <;> rfl
    | date b =>
      simp [getBinaryKeyData, getKeyFromBinary, List.take_of_length_le]
  refine ⟨hround, ?_⟩
  intro k₁ k₂ h₁ h₂ henc
  have h := hround k₁ h₁
  rw [henc, hround k₂ h₂] at h
  injection h with h'
  exact (congrArg Prod.fst h').symm

/-- C3 witness: the string key `"a"` (one UTF-8 byte `97`), the number with
image `[64, 8, 0, 0, 0, 0, 0, 0]` (the double `3.0`, trimmed to `[64, 8]`)
and the 8-byte date image `[1, 0, 0, 0, 0, 0, 0, 0]` all decode back to
themselves. -/
theorem keyCodec_roundtrip_witness :
    SupportedKey (.num [64, 8, 0, 0, 0, 0, 0, 0]) ∧
    getKeyFromBinary (getBinaryKeyData (.num [64, 8, 0, 0, 0, 0, 0, 0])) =
      some (.num [64, 8, 0, 0, 0, 0, 0, 0], 4) := by
  refine ⟨rfl, ?_⟩
  have h := keyCodec_roundtrip.1 (.num [64, 8, 0, 0, 0, 0, 0, 0]) rfl
  rw [h]
  rfl

/-- C3 counterexample: the claim (with the spec sentence it comes from)
asserts that date payloads are trailing-zero-trimmed like numbers and that
the decoder right-pads them to 8 bytes.  Neither happens: encoding the date
with epoch-ms image `[1,0,0,0,0,0,0,0]` stores all 8 bytes including the
trailing zeros (not the trimmed `[4,1,1]`), and decoding the trimmed form
`[4,1,1]` yields a date with the 1-byte payload `[1]`, not padded to 8
bytes. -/
theorem dateKey_not_trimmed :
    getBinaryKeyData (.date [1, 0, 0, 0, 0, 0, 0, 0]) = [4, 8, 1, 0, 0, 0, 0, 0, 0, 0] ∧
    stripTrailingZeros [1, 0, 0, 0, 0, 0, 0, 0] = [1] ∧
    getBinaryKeyData (.date [1, 0, 0, 0, 0, 0, 0, 0]) ≠ [4, 1, 1] ∧
    getKeyFromBinary [4, 1, 1] = some (.date [1], 3) ∧
    (BinKey.date [1] ≠ .date [1, 0, 0, 0, 0, 0, 0, 0]) := by
  refine ⟨rfl, by decide, by decide, rfl, by decide⟩

/-! ## Free-space allocator (`BinaryBPlusTree._requestFreeSpace` / `_growTree`)

Source lines 3276-3342.  The allocator state carries the current total byte
length, the free tail length (`info.freeSpace`), the original file length,
the auto-grow flag and the reclaimed-region list `_fst`.  Header writes
(`free_byte_length`, `byte_length`) are modelled as the corresponding state
field updates. -/

structure FreeSpaceBlock where
  index : Nat
  length : Nat
  deriving DecidableEq, Repr

structure AllocState where
  byteLength : Nat
  freeSpace : Nat
  originalByteLength : Nat
  autoGrow : Bool
  fst : List FreeSpaceBlock
  deriving DecidableEq, Repr

inductive AllocOutcome where
  /-- `Promise.resolve(best)` or `go()`: a block is handed out and the new
  allocator state persisted. -/
  | reserved (block : FreeSpaceBlock) (st : AllocState)
  /-- `throw new Error('too much space being wasted. tree rebuild is needed')` -/
  | rebuildNeeded
  /-- `Promise.reject(new Error('not enough free space available'))` or the
  `_growTree` rejection -/
  | notEnoughSpace
  deriving DecidableEq, Repr

/-- Index (into `fst`) of the block `available.sort((a,b) => a.length <
b.length ? -1 : 1)[0]`: a qualifying block (`length ≥ n`) of minimal length.
Ties go to the earliest block; the source's sort leaves the tie order
unspecified, which no claim depends on. -/
def bestFitIndex (fst : List FreeSpaceBlock) (n : Nat) : Option Nat :=
  match fst with
  | [] => none
  | b :: rest =>
    match bestFitIndex rest n with
    | none => if n ≤ b.length then some 0 else none
    | some j =>
      if n ≤ b.length ∧ b.length ≤ ((rest.get? j).getD ⟨0, 0⟩).length then some 0
      else some (j + 1)

/-- `wastedSpace`: `this._fst.reduce((total, block) => total + block.length, 0)`. -/
def wastedSpace (fst : List FreeSpaceBlock) : Nat :=
  fst.foldl (fun total block => total + block.length) 0

/-- `Math.round(this._originalByteLength * 0.5)`: for a natural `m`,
`Math.round(m / 2) = ⌊(m + 1) / 2⌋` (JS rounds halves up). -/
def maxWaste (originalByteLength : Nat) : Nat := (originalByteLength + 1) / 2

/-- `BinaryBPlusTree._requestFreeSpace(bytesRequired)` (lines 3305-3342),
with `_growTree` (3276-3291) inlined at its single call site: best fit over
the reclaimed list, else the wasted-space guard, else carve from the free
tail (persisting the decreased `free_byte_length`), else grow-and-retry when
`autoGrow` is set (`grow = bytesRequired - freeSpace`, added to both
`byteLength` and `freeSpace`, after which `go()` carves), else reject. -/
def _requestFreeSpace (st : AllocState) (bytesRequired : Nat) : AllocOutcome :=
  match bestFitIndex st.fst bytesRequired with
  | some i =>
    .reserved ((st.fst.get? i).getD ⟨0, 0⟩) { st with fst := st.fst.eraseIdx i }
  | none =>
    if maxWaste st.originalByteLength < wastedSpace st.fst then .rebuildNeeded
    else if bytesRequired ≤ st.freeSpace then
      .reserved ⟨st.byteLength - st.freeSpace, bytesRequired⟩
        { st with freeSpace := st.freeSpace - bytesRequired }
    else if st.autoGrow then
      let grow := bytesRequired - st.freeSpace
      let st' := { st with byteLength := st.byteLength + grow,
                           freeSpace := st.freeSpace + grow }
      .reserved ⟨st'.byteLength - st'.freeSpace, bytesRequired⟩
        { st' with freeSpace := st'.freeSpace - bytesRequired }
    else .notEnoughSpace

theorem bestFitIndex_cons (b : FreeSpaceBlock) (rest : List FreeSpaceBlock) (n : Nat) :
    bestFitIndex (b :: rest) n =
      match bestFitIndex rest n with
      | none => if n ≤ b.length then some 0 else none
      | some j =>
        if n ≤ b.length ∧ b.length ≤ ((rest.get? j).getD ⟨0, 0⟩).length then some 0
        else some (j + 1) := rfl

theorem bestFitIndex_none (fst : List FreeSpaceBlock) (n : Nat) :
    bestFitIndex fst n = none ↔ ∀ b ∈ fst, b.length < n := by
  induction fst with
  | nil => simp [bestFitIndex]
  | cons b rest ih =>
    cases hrest : bestFitIndex rest n with
    | none =>
      simp only [bestFitIndex_cons, hrest]
      rw [hrest] at ih
      by_cases hb : n ≤ b.length
      · rw [if_pos hb]
        simp only [List.mem_cons]
        constructor
        · intro h; cases h
        · intro h
          exact absurd (h b (Or.inl rfl)) (by omega)
      · rw [if_neg hb]
        simp only [List.mem_cons]
        constructor
        · intro _ x hx
          rcases hx with hx | hx
          · subst hx; omega
          · exact (ih.mp rfl) x hx
        · intro _; trivial
    | some j =>
      simp only [bestFitIndex_cons, hrest]
      constructor
      · intro h
        by_cases hcond : n ≤ b.length ∧ b.length ≤ ((rest.get? j).getD ⟨0, 0⟩).length
        · rw [if_pos hcond] at h; cases h
        · rw [if_neg hcond] at h; cases h
      · intro h
        have hnone := ih.mpr (fun x hx => h x (List.mem_cons_of_mem b hx))
        rw [hrest] at hnone
        cases hnone

theorem bestFitIndex_some (fst : List FreeSpaceBlock) (n : Nat) (i : Nat)
    (h : bestFitIndex fst n = some i) :
    ∃ hi : i < fst.length,
      n ≤ (fst.get ⟨i, hi⟩).length ∧
      ∀ b ∈ fst, n ≤ b.length → (fst.get ⟨i, hi⟩).length ≤ b.length := by
  induction fst generalizing i with
  | nil => cases h
  | cons b rest ih =>
    rw [bestFitIndex_cons] at h
    cases hrest : bestFitIndex rest n with
    | none =>
      rw [hrest] at h
      simp only at h
      by_cases hb : n ≤ b.length
      · rw [if_pos hb] at h
        injection h with h
        subst h
        refine ⟨by simp, hb, ?_⟩
        intro x hx hnx
        rcases List.mem_cons.mp hx with hx | hx
        · subst hx; exact le_refl _
        · exact absurd hnx (by
            have := (bestFitIndex_none rest n).mp hrest x hx
            omega)
      · rw [if_neg hb] at h
        cases h
    | some j =>
      rw [hrest] at h
      simp only at h
      obtain ⟨hj, hjfit, hjmin⟩ := ih j hrest
      have hget : (rest.get? j).getD ⟨0, 0⟩ = rest.get ⟨j, hj⟩ := by
        rw [List.get?_eq_get hj]; rfl
      by_cases hcond : n ≤ b.length ∧ b.length ≤ ((rest.get? j).getD ⟨0, 0⟩).length
      · rw [if_pos hcond] at h
        injection h with h
        subst h
        refine ⟨by simp, hcond.1, ?_⟩
        intro x hx hnx
        rcases List.mem_cons.mp hx with hx | hx
        · subst hx; exact le_refl _
        · calc b.length ≤ ((rest.get? j).getD ⟨0, 0⟩).length := hcond.2
          _ = (rest.get ⟨j, hj⟩).length := by rw [hget]
          _ ≤ x.length := hjmin x hx hnx
      · rw [if_neg hcond] at h
        injection h with h
        subst h
        refine ⟨by simpa using Nat.succ_lt_succ hj, hjfit, ?_⟩
        intro x hx hnx
        rcases List.mem_cons.mp hx with hx | hx
        · subst hx
          rw [hget] at hcond
          push_neg at hcond
          by_cases hb : n ≤ x.length
          · exact le_of_lt (hcond hb)
          · exact absurd hnx hb
        · exact hjmin x hx hnx

/-- C5 (amended): behaviour of `_requestFreeSpace`.  (i) If some reclaimed
region fits, a fitting region of minimal length is removed from the
reclaimed list and returned.  Otherwise (ii) if the summed reclaimed lengths
exceed `Math.round(0.5 * originalByteLength)` the request fails with the
rebuild-needed error; (iii) else if the free tail is at least `n`, `n` bytes
are carved at `byteLength - freeSpace` and the decreased free tail persisted;
(iv) else with auto-grow enabled the total length is extended by
`n - freeSpace` and the carve retried; (v) else the request rejects with
not-enough-space. -/
theorem requestFreeSpace_spec (st : AllocState) (n : Nat) :
    ((∃ b ∈ st.fst, n ≤ b.length) →
      ∃ i, ∃ hi : i < st.fst.length,
        n ≤ (st.fst.get ⟨i, hi⟩).length ∧
        (∀ b ∈ st.fst, n ≤ b.length → (st.fst.get ⟨i, hi⟩).length ≤ b.length) ∧
        _requestFreeSpace st n =
          .reserved (st.fst.get ⟨i, hi⟩) { st with fst := st.fst.eraseIdx i }) ∧
    ((∀ b ∈ st.fst, b.length < n) →
      (maxWaste st.originalByteLength < wastedSpace st.fst →
        _requestFreeSpace st n = .rebuildNeeded) ∧
      (wastedSpace st.fst ≤ maxWaste st.originalByteLength → n ≤ st.freeSpace →
        _requestFreeSpace st n =
          .reserved ⟨st.byteLength - st.freeSpace, n⟩
            { st with freeSpace := st.freeSpace - n }) ∧
      (wastedSpace st.fst ≤ maxWaste st.originalByteLength → st.freeSpace < n →
        st.autoGrow = true →
        _requestFreeSpace st n =
          .reserved ⟨st.byteLength - st.freeSpace, n⟩
            { st with byteLength := st.byteLength + (n - st.freeSpace),
                      freeSpace := 0 }) ∧
      (wastedSpace st.fst ≤ maxWaste st.originalByteLength → st.freeSpace < n →
        st.autoGrow = false → _requestFreeSpace st n = .notEnoughSpace)) := by
  constructor
  · intro hfit
    cases hbf : bestFitIndex st.fst n with
    | none =>
      obtain ⟨b, hb, hnb⟩ := hfit
      have := (bestFitIndex_none st.fst n).mp hbf b hb
      omega
    | some i =>
      obtain ⟨hi, hifit, himin⟩ := bestFitIndex_some st.fst n i hbf
      refine ⟨i, hi, hifit, himin, ?_⟩
      simp only [_requestFreeSpace, hbf]
      have hget : (st.fst.get? i).getD ⟨0, 0⟩ = st.fst.get ⟨i, hi⟩ := by
        rw [List.get?_eq_get hi]; rfl
      rw [hget]
  · intro hnofit
    have hbf : bestFitIndex st.fst n = none := (bestFitIndex_none st.fst n).mpr hnofit
    refine ⟨?_, ?_, ?_, ?_⟩
    · intro hwaste
      simp only [_requestFreeSpace, hbf]
      rw [if_pos hwaste]
    · intro hwaste htail
      simp only [_requestFreeSpace, hbf]
      rw [if_neg (by omega), if_pos htail]
    · intro hwaste htail hgrow
      simp only [_requestFreeSpace, hbf]
      rw [if_neg (by omega), if_neg (by omega), if_pos hgrow]
      congr 1
      · congr 1
        omega
      · congr 1
        omega
    · intro hwaste htail hgrow
      simp only [_requestFreeSpace, hbf]
      rw [if_neg (by omega), if_neg (by omega), if_neg (by simp [hgrow])]

/-- Allocator state for the C5 witness: three reclaimed regions of lengths
9, 7 and 8; best fit for a request of 6 bytes is the length-7 region. -/
def allocDemoFits : AllocState :=
  ⟨100, 10, 50, false, [⟨0, 9⟩, ⟨12, 7⟩, ⟨30, 8⟩]⟩

/-- C5 witness: the best-fit branch applied to `allocDemoFits` and a 6-byte
request. -/
theorem requestFreeSpace_spec_witness :
    ∃ i, ∃ hi : i < allocDemoFits.fst.length,
      6 ≤ (allocDemoFits.fst.get ⟨i, hi⟩).length ∧
      (∀ b ∈ allocDemoFits.fst, 6 ≤ b.length →
        (allocDemoFits.fst.get ⟨i, hi⟩).length ≤ b.length) ∧
      _requestFreeSpace allocDemoFits 6 =
        .reserved (allocDemoFits.fst.get ⟨i, hi⟩)
          { allocDemoFits with fst := allocDemoFits.fst.eraseIdx i } :=
  (requestFreeSpace_spec allocDemoFits 6).1 ⟨⟨12, 7⟩, by decide, by decide⟩

/-- Allocator state for the C5 counterexample: original length 3 (odd), one
reclaimed region of length 2, free tail 5. -/
def allocDemoWaste : AllocState := ⟨20, 5, 3, false, [⟨10, 2⟩]⟩

/-- C5 counterexample: with no reclaimed region fitting a 5-byte request and
the reclaimed sum (2) strictly exceeding 50% of the original length (1.5),
the claim requires the rebuild-needed failure — but the source compares
against `Math.round(3 * 0.5) = 2`, does not fail, and carves from the tail. -/
theorem requestFreeSpace_halfWaste_counterexample :
    (∀ b ∈ allocDemoWaste.fst, b.length < 5) ∧
    2 * wastedSpace allocDemoWaste.fst > allocDemoWaste.originalByteLength ∧
    _requestFreeSpace allocDemoWaste 5 ≠ .rebuildNeeded ∧
    _requestFreeSpace allocDemoWaste 5 =
      .reserved ⟨15, 5⟩ { allocDemoWaste with freeSpace := 0 } := by
  refine ⟨by decide, by decide, by decide, by decide⟩

/-! ## Transaction engine, parallel mode (`TX.execute`, lines 5999-6068)

Each queued step carries an `action`, an optional `rollback` and a `state`
field that starts `'idle'`, is set to `'success'` by the action's `then`
handler and `'failed'` by its `catch` handler (lines 6040-6049).
`Promise.all` rejects as soon as one action rejects; actions of other steps
may still be pending at that moment, so a step's `state` when the rollback
code at line 6055 runs is `'idle'` (action pending), `'success'` or
`'failed'`.  A step run is modelled by its settlement status at that moment
(`none` = pending) plus whether it has a rollback function. -/

inductive StepState where
  | idle
  | success
  | failed
  deriving DecidableEq, Repr

structure StepRun where
  hasRollback : Bool
  /-- Settlement of the step's action when the `Promise.all` `catch` handler
  runs: `none` = still pending, `some true` = fulfilled, `some false` =
  rejected. -/
  outcome : Option Bool
  deriving DecidableEq, Repr

/-- The step's `state` field at rollback time (lines 6040-6049). -/
def stateAtCatch (r : StepRun) : StepState :=
  match r.outcome with
  | none => .idle
  | some true => .success
  | some false => .failed

/-- Line 6055: `this._queue.map(step => step.state === 'failed' || typeof
step.rollback !== 'function' ? null : step.rollback())`; `true` marks the
steps whose rollback is invoked. -/
def parallelRollback (queue : List StepRun) : List Bool :=
  queue.map (fun step => !(stateAtCatch step = .failed) && step.hasRollback)

/-- The selection the claim (and spec §4.J) describes: roll back exactly the
steps whose actions completed successfully. -/
def claimSuccessOnlyRollback (queue : List StepRun) : List Bool :=
  queue.map (fun step => (stateAtCatch step = .success) && step.hasRollback)

theorem parallelRollback_entry (r : StepRun) :
    (!(stateAtCatch r = .failed) && r.hasRollback) = true ↔
      (r.outcome ≠ some false ∧ r.hasRollback = true) := by
  rcases r with ⟨hrb, outcome⟩
  rcases outcome with _ | b
  · simp [stateAtCatch]
  · cases b <;> simp [stateAtCatch]

/-- C6 (amended): on a failure, `TX.execute(parallel = true)` invokes the
rollback of every step whose action had not *failed* — the successfully
completed steps and also any step whose action was still pending when
`Promise.all` rejected.  The selection coincides with the claim's
"successfully completed steps only" exactly when no step was still pending
at that moment. -/
theorem parallelRollback_spec (queue : List StepRun) :
    (∃ s ∈ queue, s.outcome = some false) →
      (∀ i, ∀ hi : i < queue.length,
        (parallelRollback queue).get ⟨i, by simpa [parallelRollback] using hi⟩ = true ↔
          ((queue.get ⟨i, hi⟩).outcome ≠ some false ∧
            (queue.get ⟨i, hi⟩).hasRollback = true)) ∧
      ((∀ s ∈ queue, s.outcome ≠ none) →
        parallelRollback queue = claimSuccessOnlyRollback queue) := by
  intro _
  constructor
  · intro i hi
    have hget : (parallelRollback queue).get ⟨i, by simpa [parallelRollback] using hi⟩ =
        (fun step => !(stateAtCatch step = .failed) && step.hasRollback)
          (queue.get ⟨i, hi⟩) := by
      simp [parallelRollback]
    rw [hget]
    exact parallelRollback_entry _
  · intro hsettled
    unfold parallelRollback claimSuccessOnlyRollback
    apply List.map_congr_left
    intro s hs
    rcases houtcome : s.outcome with _ | b
    · exact absurd houtcome (hsettled s hs)
    · cases b <;> simp [stateAtCatch, houtcome]

/-- C6 witness: a fully settled queue (one success, one failure): rollback
is invoked exactly for the successful step. -/
theorem parallelRollback_spec_witness :
    parallelRollback [⟨true, some true⟩, ⟨true, some false⟩] =
      claimSuccessOnlyRollback [⟨true, some true⟩, ⟨true, some false⟩] :=
  ((parallelRollback_spec [⟨true, some true⟩, ⟨true, some false⟩]
      ⟨⟨true, some false⟩, by decide, rfl⟩).2 (by decide))

/-- C6 counterexample: a queue whose first step's action is still pending
(`outcome = none`, state `'idle'`) when the second step's failure triggers
rollback.  Line 6055 skips only `'failed'` steps, so the pending step's
rollback *is* invoked (`true`), while the claim ("exactly those steps whose
actions completed successfully, and no step still pending") demands it not
be. -/
theorem parallelRollback_idle_counterexample :
    stateAtCatch ⟨true, none⟩ = .idle ∧
    parallelRollback [⟨true, none⟩, ⟨true, some false⟩] = [true, false] ∧
    claimSuccessOnlyRollback [⟨true, none⟩, ⟨true, some false⟩] = [false, false] ∧
    parallelRollback [⟨true, none⟩, ⟨true, some false⟩] ≠
      claimSuccessOnlyRollback [⟨true, none⟩, ⟨true, some false⟩] := by
  refine ⟨rfl, rfl, rfl, by decide⟩

/-! ## Tree-lock usage of the public mutations (C7)

`add` (lines 3746-3950) opens with `ThreadSafe.lock(this.id, ...)` (line
3759) before `findLeaf` and releases in both the success and failure
continuations (3927-3933).  `rebuild` (4119-...) likewise locks at line 4181
before reading leaves.  `remove` (3956-3982) and `update` (3990-4020) call
`this.findLeaf(key)` immediately and then `_writeLeaf`, with no
`ThreadSafe.lock` call anywhere in their bodies.  The success-path operation
sequences are modelled as event lists. -/

inductive TreeOp where
  | acquireTreeLock
  | readLeaf
  | writeBytes
  | releaseTreeLock
  deriving DecidableEq, Repr

/-- `add`: lock → findLeaf → leaf/ext writes → release. -/
def addOps : List TreeOp := [.acquireTreeLock, .readLeaf, .writeBytes, .releaseTreeLock]

/-- `rebuild`: lock → read all leaves → write new tree → release. -/
def rebuildOps : List TreeOp := [.acquireTreeLock, .readLeaf, .writeBytes, .releaseTreeLock]

/-- `remove`: findLeaf → _writeLeaf, no lock. -/
def removeOps : List TreeOp := [.readLeaf, .writeBytes]

/-- `update`: findLeaf → _writeLeaf, no lock. -/
def updateOps : List TreeOp := [.readLeaf, .writeBytes]

/-- C7 counterexample: `remove` and `update` read the target leaf and write
bytes without ever acquiring the tree lock, contradicting the claim that
every public mutation serializes on it. -/
theorem removeUpdate_no_lock :
    TreeOp.acquireTreeLock ∉ removeOps ∧ TreeOp.acquireTreeLock ∉ updateOps ∧
    TreeOp.readLeaf ∈ removeOps ∧ TreeOp.writeBytes ∈ removeOps ∧
    TreeOp.readLeaf ∈ updateOps ∧ TreeOp.writeBytes ∈ updateOps := by
  refine ⟨by decide, by decide, by decide, by decide, by decide, by decide⟩

/-- C7 (amended): only `add` and `rebuild` serialize on the tree-level lock
(acquired before the leaf read, released at the end); `remove` and `update`
perform their leaf read and byte writes without acquiring it. -/
theorem treeLock_usage :
    addOps.head? = some .acquireTreeLock ∧
    addOps.getLast? = some .releaseTreeLock ∧
    rebuildOps.head? = some .acquireTreeLock ∧
    rebuildOps.getLast? = some .releaseTreeLock ∧
    TreeOp.acquireTreeLock ∉ removeOps ∧
    TreeOp.acquireTreeLock ∉ updateOps := by
  refine ⟨rfl, rfl, rfl, rfl, by decide, by decide⟩

/-! ## `BinaryBPlusTree.transaction` (lines 4026-4061, C8)

The driver shifts operations off the front of the array, dispatches on
`op.type` to `this.add` / `this.remove` / `this.update`, continues on
success (resolving when the array is empty) and on failure unshifts the
failed operation and rejects.  Called with an *empty* array,
`operations.shift()` yields `undefined` and `op.type` throws a `TypeError`
inside the promise executor, rejecting the promise.  The tree mutations are
abstracted as a state transformer supplied per operation type; `St` is the
tree state, `E` the error type. -/

inductive TxOperation where
  | add (key : JsKey) (recordPointer : List Nat)
  | remove (key : JsKey) (recordPointer : Option (List Nat))
  | update (key : JsKey) (newValue : List Nat) (currentValue : Option (List Nat))
  deriving DecidableEq

/-- The tree's three mutation entry points: each either succeeds with a new
state or rejects with an error (leaving, for the purposes of this driver,
the state it produced). -/
structure TreeMutators (St E : Type) where
  add : JsKey → List Nat → St → Except E St
  remove : JsKey → Option (List Nat) → St → Except E St
  update : JsKey → List Nat → Option (List Nat) → St → Except E St

inductive TxOutcome (St E : Type) where
  /-- `resolve()` -/
  | resolved (s : St)
  /-- `operations.unshift(op); reject(reason)`: the error, the operations
  array after the unshift, and the state (already-succeeded operations
  remain applied). -/
  | rejected (e : E) (operations : List TxOperation) (s : St)
  /-- the `TypeError` from `op.type` on an empty array -/
  | typeError (s : St)
  deriving DecidableEq

def dispatchOp {St E : Type} (fns : TreeMutators St E) (op : TxOperation) (s : St) :
    Except E St :=
  match op with
  | .add key rp => fns.add key rp s
  | .remove key rp => fns.remove key rp s
  | .update key newVal curVal => fns.update key newVal curVal s

/-- `processNextOperation` (lines 4036-4058), started by the executor
(line 4059). -/
def processNextOperation {St E : Type} (fns : TreeMutators St E) :
    List TxOperation → St → TxOutcome St E
  | [], s => .typeError s
  | op :: rest, s =>
    match dispatchOp fns op s with
    | .ok s' => if rest.isEmpty then .resolved s' else processNextOperation fns rest s'
    | .error e => .rejected e (op :: rest) s

/-- The claim's reading of the driver: apply the operations strictly in list
order; resolve when all succeed; at the first failure reject with the failed
operation back at the front and the earlier operations' effects kept. -/
def claimTransaction {St E : Type} (fns : TreeMutators St E) :
    List TxOperation → St → TxOutcome St E
  | [], s => .resolved s
  | op :: rest, s =>
    match dispatchOp fns op s with
    | .ok s' => claimTransaction fns rest s'
    | .error e => .rejected e (op :: rest) s

/-- C8 (amended): on every *non-empty* operation list the driver behaves
exactly as the claim states. -/
theorem transaction_spec {St E : Type} (fns : TreeMutators St E)
    (ops : List TxOperation) (s : St) (hne : ops ≠ []) :
    processNextOperation fns ops s = claimTransaction fns ops s := by
  induction ops generalizing s with
  | nil => exact absurd rfl hne
  | cons op rest ih =>
    simp only [processNextOperation, claimTransaction]
    cases dispatchOp fns op s with
    | error e => rfl
    | ok s' =>
      cases rest with
      | nil => rfl
      | cons op' rest' => simpa using ih s' (by simp)

/-- Mutators over `St := Nat`, `E := Unit` for the closed C8 instances:
`add` increments the state, `remove` always rejects, `update` succeeds. -/
def demoMutators : TreeMutators Nat Unit where
  add := fun _ _ s => .ok (s + 1)
  remove := fun _ _ _ => .error ()
  update := fun _ _ _ s => .ok s

/-- C8 witness: two adds then a failing remove: both adds stay applied, the
failed operation is back at the front of the array, and the promise rejects. -/
theorem transaction_spec_witness :
    processNextOperation demoMutators
        [.add .undef [1], .add .undef [2], .remove .undef none, .add .undef [3]] 0 =
      .rejected () [.remove .undef none, .add .undef [3]] 2 := by
  rw [transaction_spec demoMutators _ 0 (by decide)]
  rfl

/-- C8 counterexample: called with the empty operation list the promise does
not resolve — `operations.shift()` is `undefined` and `op.type` throws,
rejecting the promise — while the claim ("resolves when all succeed", which
an empty list vacuously satisfies) requires resolution. -/
theorem transaction_empty_counterexample :
    processNextOperation demoMutators [] 0 = .typeError 0 ∧
    claimTransaction demoMutators [] 0 = .resolved 0 ∧
    processNextOperation demoMutators [] 0 ≠ claimTransaction demoMutators [] 0 := by
  refine ⟨rfl, rfl, by decide⟩

/-! ## In-memory `BPlusTree.search`, "in" operator (lines 1148-1166, C9)

```
let sorted = val.slice().sort();
let searchKey = sorted.shift();
let leaf; let trySameLeaf = false;
while (searchKey) {
  if (!trySameLeaf) { leaf = this.findLeaf(searchKey); }
  let entry = leaf.entries.find(entry => _isEqual(entry.key, val)); // entry.key === searchKey
  if (!entry && trySameLeaf) { trySameLeaf = false; continue; }
  if (entry) { add(entry); }
  searchKey = sorted.shift();
  trySameLeaf = true;
}
```

The `find` predicate compares each entry key against `val` — the whole
needle *array* — instead of `searchKey` (the adjacent comment shows the
intended comparison).  `_isEqual` (lines 47-52) first applies
`_getComparibleValue` (an array passes through unchanged), then compares
`typeof`, then `===`; a key never equals an array under it, so `find` never
finds an entry.  The loop is modelled with the sorted needle list as a
parameter (`val.slice().sort()` — the JS default sort — is order-irrelevant
here), truthiness deciding the `while` guard, and `sorted.shift()` on an
empty array yielding `undefined`. -/

/-- A JS value as passed to `_isEqual` by this call site: a key or the
needle array. -/
inductive JsValue where
  | prim (k : JsKey)
  | arr (keys : List JsKey)

/-- `_getComparibleValue` on such a value: arrays pass through (they are
neither `undefined`, `null` nor a `Date`). -/
def getComparibleValueV : JsValue → JsValue
  | .prim k => .prim (match _getComparibleValue k with
      | .null => .null
      | .bool b => .bool b
      | .num q => .num q
      | .str s => .str s)
  | .arr l => .arr l

/-- JS `typeof` after conversion; both `null` and an array are `"object"`. -/
def jsTypeofV : JsValue → List Nat
  | .prim k => jsTypeof (_getComparibleValue k)
  | .arr _ => [111, 98, 106, 101, 99, 116]  -- "object"

/-- JS `===` on a converted key and a converted array: `null === [..]` is
false, and any primitive is not reference-equal to an array. -/
def jsStrictEqKeyArr : JsKey → List JsKey → Bool
  | _, _ => false

/-- `_isEqual(entry.key, val)` at this call site (entry key vs needle
array): `typeof` mismatch returns false; equal `typeof` (only when the key
converts to `null`) falls through to `===`, also false. -/
def isEqualKeyArr (key : JsKey) (val : List JsKey) : Bool :=
  if jsTypeofV (.prim key) ≠ jsTypeofV (.arr val) then false
  else jsStrictEqKeyArr key val

theorem isEqualKeyArr_false (key : JsKey) (val : List JsKey) :
    isEqualKeyArr key val = false := by
  unfold isEqualKeyArr jsStrictEqKeyArr
  split <;> rfl

/-- An entry of the in-memory leaf; only the key matters to this claim. -/
structure MemEntry where
  key : JsKey

/-- An in-memory leaf as consumed by the search loop. -/
structure MemLeaf where
  entries : List MemEntry

/-- JS truthiness of a needle (`while (searchKey)`): `undefined`/`null` are
falsy, `false`, `0` and `""` are falsy, a `Date` object is truthy. -/
def truthy : JsKey → Bool
  | .undef => false
  | .null => false
  | .bool b => b
  | .num q => decide (q ≠ 0)
  | .date _ => true
  | .str s => decide (s ≠ [])

/-- The body of the `while (searchKey)` loop.  `sorted.shift()` on an empty
array yields `undefined`, which is falsy and exits the loop, so the shift is
modelled by matching on `sorted`; the `continue` after resetting
`trySameLeaf` re-runs the body once with a freshly located leaf (the guard
on the unchanged `searchKey` still holds), which is unfolded in place. -/
def searchInLoop (findLeaf : JsKey → MemLeaf) (val : List JsKey) :
    JsKey → List JsKey → MemLeaf → Bool → List MemEntry → List MemEntry
  | searchKey, sorted, leaf, trySameLeaf, results =>
    if truthy searchKey = false then results
    else
      let leaf1 := if trySameLeaf then leaf else findLeaf searchKey
      let found1 := leaf1.entries.find? (fun entry => isEqualKeyArr entry.key val)
      -- `if (!entry && trySameLeaf) { trySameLeaf = false; continue; }` unfolded:
      -- one re-run of the body with a freshly located leaf
      let leaf' := if found1.isNone && trySameLeaf then findLeaf searchKey else leaf1
      let found := if found1.isNone && trySameLeaf then
          leaf'.entries.find? (fun entry => isEqualKeyArr entry.key val)
        else found1
      let results' := match found with
        | some entry => results ++ [entry]
        | none => results
      match sorted with
      | [] => results'
      | k :: rest => searchInLoop findLeaf val k rest leaf' true results'

/-- `search("in", val)` of the in-memory tree (lines 1148-1166);
`sortedVal` stands for `val.slice().sort()`. -/
def searchInMem (findLeaf : JsKey → MemLeaf) (val sortedVal : List JsKey) :
    List MemEntry :=
  searchInLoop findLeaf val (sortedVal.headD .undef) sortedVal.tail ⟨[]⟩ false []

theorem find_isEqualKeyArr_none (val : List JsKey) (L : MemLeaf) :
    L.entries.find? (fun entry => isEqualKeyArr entry.key val) = none :=
  List.find?_eq_none.mpr (fun x _ => by simp [isEqualKeyArr_false])

/-- C9: the in-memory "in" search never returns anything.  Its `find`
predicate compares every entry key with the needle *array* `val` instead of
`searchKey`, which is false for every key, so no entry is ever added,
whatever the tree, the needles, or their sort order. -/
theorem searchInMem_empty (findLeaf : JsKey → MemLeaf) (val sortedVal : List JsKey) :
    searchInMem findLeaf val sortedVal = [] := by
  suffices h : ∀ (sorted : List JsKey) (searchKey : JsKey) (leaf : MemLeaf)
      (trySameLeaf : Bool) (results : List MemEntry),
      searchInLoop findLeaf val searchKey sorted leaf trySameLeaf results = results by
    exact h _ _ _ _ _
  intro sorted
  induction sorted with
  | nil =>
    intro searchKey leaf trySameLeaf results
    rw [searchInLoop]
    simp [find_isEqualKeyArr_none]
  | cons k rest ih =>
    intro searchKey leaf trySameLeaf results
    rw [searchInLoop]
    simp [find_isEqualKeyArr_none, ih]

/-- Leaf used by the C9 failing input: a single entry with key `"a"`. -/
def demoLeaf : MemLeaf := ⟨[⟨.str [97]⟩]⟩

/-- C9 failing input evaluated: searching `in ["a"]` in a tree whose leaf
contains the key `"a"` returns no results, though the claim requires the
matching entry. -/
theorem searchInMem_misses_match :
    searchInMem (fun _ => demoLeaf) [.str [97]] [.str [97]] = [] ∧
    (∃ e ∈ demoLeaf.entries, e.key = .str [97]) := by
  exact ⟨searchInMem_empty _ _ _, ⟨⟨.str [97]⟩, by simp [demoLeaf]⟩⟩

/-! ## `BPlusTree.lastLeaf` / `BPlusTree.reverseAll` (lines 1244-1274, C10)

```
lastLeaf() {
    let node = this.root;
    while (!(node instanceof BPlusTreeLeaf)) { node = node.gtChild; }
}
reverseAll() {
    let leaf = this.lastLeaf();
    const all = [];
    while (leaf) { all.push(...leaf.entries.map(entry => entry.key)); leaf = leaf.prevLeaf; }
    return all;
}
```

`lastLeaf` descends `gtChild` to the last leaf but has no `return`
statement, so the call evaluates to `undefined`.  In-memory leaves carry
their entry keys and a `prevLeaf` link; nodes carry pivot entries and a
`gtChild`. -/

/-- An in-memory leaf: entry keys plus the backward sibling link. -/
inductive BPlusTreeLeaf where
  | mk (keys : List JsKey) (prevLeaf : Option BPlusTreeLeaf)

def BPlusTreeLeaf.keys : BPlusTreeLeaf → List JsKey
  | .mk ks _ => ks

def BPlusTreeLeaf.prevLeaf : BPlusTreeLeaf → Option BPlusTreeLeaf
  | .mk _ p => p

/-- An in-memory tree node: pivot entries with their lt-children, and the
gt-child; or a leaf. -/
inductive BPlusTreeNode where
  | node (entries : List (JsKey × BPlusTreeNode)) (gtChild : BPlusTreeNode)
  | leaf (l : BPlusTreeLeaf)

structure BPlusTree where
  root : BPlusTreeNode

/-- The `while (!(node instanceof BPlusTreeLeaf)) node = node.gtChild;` loop
of `lastLeaf`: the leaf the descent reaches. -/
def descendGtChild : BPlusTreeNode → BPlusTreeLeaf
  | .leaf l => l
  | .node _ gtChild => descendGtChild gtChild

/-- `BPlusTree.lastLeaf()` (lines 1244-1250): the loop computes the last
leaf, but the function body has no `return` statement, so the JS call
returns `undefined` — the computed leaf is discarded. -/
def lastLeaf (tree : BPlusTree) : Option BPlusTreeLeaf :=
  let _node := descendGtChild tree.root
  none

/-- The backward collection loop of `reverseAll`. -/
def collectBackward : BPlusTreeLeaf → List JsKey
  | .mk keys prev =>
    keys ++ (match prev with
      | none => []
      | some l => collectBackward l)

/-- `BPlusTree.reverseAll()` (lines 1264-1274). -/
def reverseAll (tree : BPlusTree) : List JsKey :=
  match lastLeaf tree with
  | none => []
  | some leaf => collectBackward leaf

/-- C10: `lastLeaf` always returns `undefined`, and consequently
`reverseAll` always returns the empty array, whatever the tree contains. -/
theorem lastLeaf_reverseAll_broken :
    (∀ tree : BPlusTree, lastLeaf tree = none) ∧
    (∀ tree : BPlusTree, reverseAll tree = []) := by
  refine ⟨fun tree => rfl, fun tree => rfl⟩

/-- C10 concrete instance: a tree with one leaf holding keys `"a"`, `"b"`
still yields `reverseAll = []` although its last leaf has entries. -/
theorem lastLeaf_reverseAll_broken_demo :
    reverseAll ⟨.leaf (.mk [.str [97], .str [98]] none)⟩ = [] ∧
    (descendGtChild (BPlusTreeNode.leaf (.mk [.str [97], .str [98]] none))).keys ≠ [] := by
  refine ⟨rfl, by simp [descendGtChild, BPlusTreeLeaf.keys]⟩

/-! ## ext_data `addValue` write trio (lines 2382-2431, C1)

The reachable unprotected multi-write failure path of a mutation:

* `add(key, recordPointer)` on a non-unique tree acquires the tree lock,
  locates the leaf and finds the existing entry by key (line 3770; the
  predicate compares keys only).  When the entry has ext_data,
  `entry.extData` is a plain value property (line 2291) and line 3784 calls
  `entry.extData.addValue(recordPointer, metadata)`.  Nothing on this path
  reads the throwing `entry.values` getter.
* `addValue` (2382-2431) calls `loadHeader(true)` — a pure 8-byte header
  read under the leaf lock that sets `_length` / `_freeBytes` (2342-2366) —
  and uses `this.totalValues`, the `valuesLength` closure parsed from the
  leaf's `value_list_length` field (2275, 2312), so the values need not be
  loaded.  If the encoded value fits, it fires a `Promise.all` of **three**
  positioned writes (2404-2411): the value bytes at
  `index + 8 + _length - _freeBytes`, the 8-byte block header
  `[_length, _freeBytes - valueLength]` at `index`, and
  `value_list_length = totalValues + 1` at `_listLengthIndex`.  Its `catch`
  only releases the lock and rethrows (2412-2415): unlike the `TX`-engine
  steps there is **no rollback**, so writes that settled successfully
  persist when a sibling write fails.
* `add`'s fallback (3785-3796) then calls
  `_rebuildLeaf(leaf, { growExtData: true, ... })`, which loads the
  ext_data (pure reads, 2180-2201) and requests space (3387).  When no
  reclaimed region fits, the waste guard passes, the free tail is too small
  and `autoGrow` is off (the default, line 1991), `_requestFreeSpace`
  rejects with not-enough-space *without writing* (3338; see the
  `_requestFreeSpace` model above), `_rebuildLeaf` rethrows (3522-3524) and
  `add` releases the lock and rejects (3927-3929).

The ext_data block region (starting at `this.index`) and the leaf's 4-byte
`value_list_length` field are modelled as two cells; each positioned write
either completes atomically or fails without writing (the byte source
guarantees atomicity per write).  The block's `_length` counts the value
region after the 8-byte header, used plus free bytes. -/

structure ExtDataState where
  /-- bytes of the ext_data block region starting at `this.index` -/
  blockBytes : List Nat
  /-- the leaf's `value_list_length` field at `this._listLengthIndex` -/
  valListLen : Nat
  deriving DecidableEq, Repr

/-- `_writeByteLength(bytes, index, length)` (lines 236-242): 4 big-endian
bytes. -/
def _writeByteLength (length : Nat) : List Nat :=
  [length >>> 24 &&& 0xff, length >>> 16 &&& 0xff, length >>> 8 &&& 0xff, length &&& 0xff]

/-- A positioned write of `data` at `offset` within a cell: replaces
`data.length` bytes there.  `ok = false` models an I/O failure, which by the
write-granularity atomicity assumption leaves the cell unchanged. -/
def writeCellAt (cell data : List Nat) (offset : Nat) (ok : Bool) : List Nat :=
  if ok then cell.take offset ++ data ++ cell.drop (offset + data.length) else cell

/-- `extData.addValue(recordPointer, metadata)` (lines 2382-2431) after
`loadHeader` has populated `length` (`this._length`) and `freeBytes`
(`this._freeBytes`); `extValueData` is the encoded new value.  A value that
does not fit throws before any write (2391-2395).  Otherwise the three
writes of the `Promise.all` (2404-2411) are issued concurrently — the two
block-cell writes target disjoint ranges (header `[0, 8)`, value bytes from
`8 + length - freeBytes`), so their application order is immaterial — and
the promise rejects iff any write failed, each completed write persisting. -/
def addValue (st : ExtDataState) (length freeBytes totalValues : Nat)
    (extValueData : List Nat) (writeValueOk writeHeaderOk writeListOk : Bool) :
    Except Unit Unit × ExtDataState :=
  if freeBytes < extValueData.length then (.error (), st)
  else
    let extBlockHeader := _writeByteLength length ++
      _writeByteLength (freeBytes - extValueData.length)
    let st' : ExtDataState :=
      { blockBytes :=
          writeCellAt
            (writeCellAt st.blockBytes extValueData (8 + (length - freeBytes)) writeValueOk)
            extBlockHeader 0 writeHeaderOk,
        valListLen := if writeListOk then totalValues + 1 else st.valListLen }
    (if writeValueOk && writeHeaderOk && writeListOk then .ok () else .error (), st')

/-- The pre-mutation state of the C1 failing input: an ext_data block whose
value region is 12 bytes (4 used by the serialized values `[1,1]`, `[2,2]`,
8 free) after the 8 header bytes, and `value_list_length = 2`. -/
def extDemoState : ExtDataState :=
  { blockBytes := _writeByteLength 12 ++ _writeByteLength 8 ++
      [1, 1, 2, 2] ++ List.replicate 8 0,
    valListLen := 2 }

/-- C1 failing input evaluated: adding a third value (2 encoded bytes, which
fit) when the value write fails while the header and `value_list_length`
writes succeed.  `addValue` rejects, yet the stored block header now claims
6 free bytes and the leaf says 3 values — neither is allocator bookkeeping.
The final conjunct is the rebuild fallback's space request on a tree with a
10-byte free tail, no reclaimed regions and auto-grow off: it rejects
without writing, so `add`'s promise rejects with the partial write
persisted. -/
theorem addValue_partial_write :
    (addValue extDemoState 12 8 2 [3, 3] false true true).1 = .error () ∧
    (addValue extDemoState 12 8 2 [3, 3] false true true).2.blockBytes ≠
      extDemoState.blockBytes ∧
    (addValue extDemoState 12 8 2 [3, 3] false true true).2.valListLen ≠
      extDemoState.valListLen ∧
    _requestFreeSpace ⟨100, 10, 100, false, []⟩ 36 = .notEnoughSpace := by
  refine ⟨rfl, by decide, by decide, by decide⟩

end AceBase
